import Mathlib

/-!
Verification of the `jsonsplit` package (src/jsonsplit.go) against its
natural-language specification.

Shallow embedding conventions:
* Go `float32` values are represented by their IEEE-754 bit patterns as
  `Nat` (< 2^32).  The code under verification performs no floating-point
  arithmetic on ratios: it only compares them (`<`, `>=`, `!=`, `min`,
  `max`) and packs/unpacks the raw bits (`math.Float32bits` /
  `math.Float32frombits`, which are the identity on bit patterns).
  IEEE-754 comparison of two non-NaN single-precision floats coincides
  with integer comparison of a sign-folded key (negate the magnitude for
  negative sign), with +0 and -0 comparing equal; any comparison with a
  NaN is false, and `!=` with a NaN is true.  Go's builtin `min`/`max`
  propagate NaN.
* Go `int` (the representation of `CallMode`) is modelled as `Int`.
* The packed `atomic.Uint64` word is a `Nat` (< 2^64 for all reachable
  values).
-/

namespace Jsonsplit

/-! ### float32 bit patterns -/

/-- Exponent field of a float32 bit pattern. -/
def f32Exp (b : Nat) : Nat := (b >>> 23) % 256

/-- Mantissa field of a float32 bit pattern. -/
def f32Man (b : Nat) : Nat := b % 2 ^ 23

/-- Whether a float32 bit pattern denotes a NaN. -/
def f32IsNaN (b : Nat) : Bool := f32Exp b == 255 && f32Man b != 0

/-- Magnitude bits (exponent and mantissa) of a float32 bit pattern. -/
def f32Mag (b : Nat) : Nat := b % 2 ^ 31

/-- Sign bit of a float32 bit pattern. -/
def f32IsNeg (b : Nat) : Bool := b / 2 ^ 31 % 2 == 1

/-- Order key of a float32 bit pattern: for non-NaN patterns, the IEEE-754
numeric order (with -0 = +0) is exactly the integer order of this key. -/
def f32Key (b : Nat) : Int := if f32IsNeg b then -(f32Mag b : Int) else (f32Mag b : Int)

/-- IEEE-754 `<` on float32 bit patterns (false whenever either is NaN). -/
def f32Lt (a b : Nat) : Bool := !f32IsNaN a && !f32IsNaN b && decide (f32Key a < f32Key b)

/-- IEEE-754 `<=` on float32 bit patterns (false whenever either is NaN). -/
def f32Le (a b : Nat) : Bool := !f32IsNaN a && !f32IsNaN b && decide (f32Key a ≤ f32Key b)

/-- IEEE-754 `>=` on float32 bit patterns. -/
def f32Ge (a b : Nat) : Bool := f32Le b a

/-- IEEE-754 `!=` on float32 bit patterns (true whenever either is NaN). -/
def f32Ne (a b : Nat) : Bool := f32IsNaN a || f32IsNaN b || decide (f32Key a ≠ f32Key b)

/-- Bit pattern of float32 `+0.0`. -/
def f32Zero : Nat := 0

/-- Bit pattern of float32 `1.0`. -/
def f32One : Nat := 0x3f800000

/-- A canonical quiet-NaN bit pattern (stands for the NaN results of Go's
builtin `min`/`max`; only its NaN-ness is ever observed). -/
def f32QNaN : Nat := 0x7fc00000

/-- Go builtin `max` on float32: NaN if either argument is NaN, otherwise
the numerically larger argument (ties keep the first argument, which in
particular yields `+0` for `max(+0, -0)` as the Go spec requires). -/
def goMaxF32 (a b : Nat) : Nat :=
  if f32IsNaN a || f32IsNaN b then f32QNaN else if f32Key a < f32Key b then b else a

/-- Go builtin `min` on float32: NaN if either argument is NaN, otherwise
the numerically smaller argument (ties keep the first argument). -/
def goMinF32 (a b : Nat) : Nat :=
  if f32IsNaN a || f32IsNaN b then f32QNaN else if f32Key b < f32Key a then b else a

/-! ### CallMode (src/jsonsplit.go lines 427-472) -/

/-- `CallMode` is a Go `int`. -/
abbrev CallMode := Int

def OnlyCallV1 : CallMode := 0
def CallV1ButUponErrorReturnV2 : CallMode := 1
def CallBothButReturnV1 : CallMode := 2
def CallBothButReturnV2 : CallMode := 3
def CallV2ButUponErrorReturnV1 : CallMode := 4
def OnlyCallV2 : CallMode := 5
def maxCallMode : CallMode := 6

/-- `CallMode.checkValid` (line 468): the call panics unless
`0 <= m < maxCallMode`; we model the panic condition as `false`. -/
def checkValid (m : CallMode) : Bool := !(decide (m < 0) || decide (m ≥ maxCallMode))

/-! ### callModeRatio (src/jsonsplit.go lines 787-823) -/

/-- Bit packing of `storeModeRatio` (lines 800-803):
mode1 in bits [0:16), mode2 in bits [16:32), float32 ratio bits in [32:64).
The modes are masked with `0xffff` exactly as the Go code does; the modes
reaching this point have already been validated, so they are `Nat`s here. -/
def packModeRatio (m1 m2 : Nat) (rb : Nat) : Nat :=
  (m1 &&& 0xffff) <<< 0 ||| (m2 &&& 0xffff) <<< 16 ||| rb <<< 32

/-- `callModeRatio.storeModeRatio` (lines 794-805).  `rb` is the bit
pattern of the float32 ratio.  `none` models a panic (invalid mode, or
ratio failing the `ratio != min(max(0, ratio), 1)` range check); otherwise
the packed word that atomically replaces the previous one is returned. -/
def storeModeRatio (m1 m2 : CallMode) (rb : Nat) : Option Nat :=
  if !checkValid m1 then none
  else if !checkValid m2 then none
  else if f32Ne rb (goMinF32 (goMaxF32 f32Zero rb) f32One) then none
  else some (packModeRatio m1.toNat m2.toNat rb)

/-- `callModeRatio.loadModeRatio` (lines 807-813): unpack the atomically
loaded word into (mode1, mode2, float32 ratio bits). -/
def loadModeRatio (w : Nat) : CallMode × CallMode × Nat :=
  ((((w >>> 0) &&& 0xffff : Nat) : Int), (((w >>> 16) &&& 0xffff : Nat) : Int),
    (w >>> 32) % 2 ^ 32)

/-- `callModeRatio.loadRandomMode` (lines 816-823); `r` is the bit pattern
of the uniform draw `rand.Float32()` (always in `[0, 1)`). -/
def loadRandomMode (w : Nat) (r : Nat) : CallMode :=
  let mr := loadModeRatio w
  if f32Lt mr.2.2 f32One && f32Ge r mr.2.2 then mr.1 else mr.2.1

/-- The possible values of the packed word of a `callModeRatio` under any
interleaving of `storeModeRatio` and load operations: the word starts at 0
(the zero `Codec` value), and every store atomically replaces the whole
word with the packed encoding of a validated triple.  Loads do not change
the word, and each load observes the whole word in a single step. -/
inductive ReachableWord : Nat → Prop where
  | init : ReachableWord 0
  | store (w w' : Nat) (m1 m2 : CallMode) (rb : Nat) :
      ReachableWord w → rb < 2 ^ 32 → storeModeRatio m1 m2 rb = some w' → ReachableWord w'

/-! ### Arithmetic helper lemmas for the bit packing -/

theorem lor_mul_two_pow_eq_add {a b n : Nat} (h : a < 2 ^ n) :
    a ||| b * 2 ^ n = b * 2 ^ n + a := by
  rw [Nat.lor_comm, Nat.mul_comm b (2 ^ n), ← Nat.mul_add_lt_is_or h, Nat.mul_comm (2 ^ n) b]

theorem packModeRatio_eq_add {m1 m2 rb : Nat} (h1 : m1 < 2 ^ 16) (h2 : m2 < 2 ^ 16) :
    packModeRatio m1 m2 rb = m1 + m2 * 2 ^ 16 + rb * 2 ^ 32 := by
  have e1 : m1 &&& 0xffff = m1 := by
    have : (0xffff : Nat) = 2 ^ 16 - 1 := by norm_num
    rw [this, Nat.and_pow_two_sub_one_eq_mod, Nat.mod_eq_of_lt h1]
  have e2 : m2 &&& 0xffff = m2 := by
    have : (0xffff : Nat) = 2 ^ 16 - 1 := by norm_num
    rw [this, Nat.and_pow_two_sub_one_eq_mod, Nat.mod_eq_of_lt h2]
  have s1 : m1 ||| m2 * 2 ^ 16 = m2 * 2 ^ 16 + m1 := lor_mul_two_pow_eq_add h1
  have h3 : m2 * 2 ^ 16 + m1 < 2 ^ 32 := by
    have : m2 * 2 ^ 16 ≤ (2 ^ 16 - 1) * 2 ^ 16 :=
      Nat.mul_le_mul_right _ (by omega)
    omega
  have s2 : m2 * 2 ^ 16 + m1 ||| rb * 2 ^ 32 = rb * 2 ^ 32 + (m2 * 2 ^ 16 + m1) :=
    lor_mul_two_pow_eq_add h3
  unfold packModeRatio
  rw [e1, e2, Nat.shiftLeft_zero, Nat.shiftLeft_eq, Nat.shiftLeft_eq, s1, s2]
  ring

theorem loadModeRatio_packModeRatio {m1 m2 rb : Nat}
    (h1 : m1 < 2 ^ 16) (h2 : m2 < 2 ^ 16) (h3 : rb < 2 ^ 32) :
    loadModeRatio (packModeRatio m1 m2 rb) = ((m1 : Int), (m2 : Int), rb) := by
  rw [packModeRatio_eq_add h1 h2]
  have hmask : (0xffff : Nat) = 2 ^ 16 - 1 := by norm_num
  unfold loadModeRatio
  rw [Nat.shiftRight_zero, hmask, Nat.and_pow_two_sub_one_eq_mod,
    Nat.and_pow_two_sub_one_eq_mod, Nat.shiftRight_eq_div_pow, Nat.shiftRight_eq_div_pow]
  have q1 : (m1 + m2 * 2 ^ 16 + rb * 2 ^ 32) % 2 ^ 16 = m1 := by omega
  have q2 : (m1 + m2 * 2 ^ 16 + rb * 2 ^ 32) / 2 ^ 16 % 2 ^ 16 = m2 := by omega
  have q3 : (m1 + m2 * 2 ^ 16 + rb * 2 ^ 32) / 2 ^ 32 % 2 ^ 32 = rb := by omega
  rw [q1, q2, q3]

/-- If a store succeeds, its arguments were valid and the stored word is
the packed encoding. -/
theorem storeModeRatio_some {m1 m2 : CallMode} {rb w : Nat}
    (h : storeModeRatio m1 m2 rb = some w) :
    checkValid m1 = true ∧ checkValid m2 = true ∧
      f32Ne rb (goMinF32 (goMaxF32 f32Zero rb) f32One) = false ∧
      w = packModeRatio m1.toNat m2.toNat rb := by
  unfold storeModeRatio at h
  by_cases c1 : checkValid m1 <;> by_cases c2 : checkValid m2 <;>
    simp [c1, c2] at h ⊢
  by_cases c3 : f32Ne rb (goMinF32 (goMaxF32 f32Zero rb) f32One) <;> simp [c3] at h ⊢
  omega

/-- The ratio range check of `storeModeRatio` accepts exactly the bit
patterns whose IEEE-754 value lies in `[0, 1]` (NaN is rejected). -/
theorem ratio_check_iff (rb : Nat) :
    f32Ne rb (goMinF32 (goMaxF32 f32Zero rb) f32One) = false ↔
      (f32Le f32Zero rb = true ∧ f32Le rb f32One = true) := by
  have hz : f32IsNaN f32Zero = false := by decide
  have ho : f32IsNaN f32One = false := by decide
  have hq : f32IsNaN f32QNaN = true := by decide
  have hkz : f32Key f32Zero = 0 := by decide
  have hko : f32Key f32One = 0x3f800000 := by decide
  by_cases hn : f32IsNaN rb
  · simp [goMaxF32, goMinF32, hn, f32Ne, f32Le, hq]
  · simp only [goMaxF32, goMinF32, hn, hz, ho, hq, Bool.false_or, Bool.or_false,
      if_false, Bool.false_eq_true, ite_false]
    by_cases h1 : f32Key f32Zero < f32Key rb
    · -- max(0, rb) = rb
      simp only [h1, if_true, ite_true]
      by_cases h2 : f32Key f32One < f32Key rb
      · simp only [hn, h2, if_true, ite_true, f32Ne, f32Le, hz, ho, Bool.not_false]
        simp only [hko] at h2
        simp [hkz, hko]
        omega
      · simp only [hn, h2, if_false, Bool.false_eq_true, ite_false, f32Ne, f32Le, hz, ho]
        simp [hkz, hko] at h1 h2 ⊢
        omega
    · -- max(0, rb) = 0, min(0, 1) = 0
      have h2 : ¬(f32Key f32One < f32Key f32Zero) := by rw [hkz, hko]; omega
      simp only [h1, h2, if_false, Bool.false_eq_true, ite_false, f32Ne, f32Le, hn, hz, ho]
      simp [hkz, hko] at h1 ⊢
      omega

theorem checkValid_iff (m : CallMode) : checkValid m = true ↔ (0 ≤ m ∧ m < maxCallMode) := by
  simp only [checkValid, maxCallMode, Bool.not_eq_true', Bool.or_eq_false_iff,
    decide_eq_false_iff_not, not_lt, not_le]

theorem storeModeRatio_none_iff (m1 m2 : CallMode) (rb : Nat) :
    storeModeRatio m1 m2 rb = none ↔
      (checkValid m1 = false ∨ checkValid m2 = false ∨
        f32Ne rb (goMinF32 (goMaxF32 f32Zero rb) f32One) = true) := by
  unfold storeModeRatio
  by_cases c1 : checkValid m1 <;> by_cases c2 : checkValid m2 <;>
    by_cases c3 : f32Ne rb (goMinF32 (goMaxF32 f32Zero rb) f32One) <;>
    simp [c1, c2, c3]

/-! ### Claims C3, C4, C5, C9 -/

/-- C4: For every (mode1, mode2, ratio), `storeModeRatio` fails (panics)
if and only if mode1 or mode2 lies outside the 6-element `CallMode`
enumeration or the ratio is outside `[0, 1]` — where a NaN ratio counts as
outside `[0, 1]` because every IEEE-754 comparison involving it is false —
and when it does not fail it replaces the packed word with the encoding of
the given triple. -/
theorem storeModeRatio_fails_iff (m1 m2 : CallMode) (rb : Nat) :
    (storeModeRatio m1 m2 rb = none ↔
      ¬(0 ≤ m1 ∧ m1 < maxCallMode) ∨ ¬(0 ≤ m2 ∧ m2 < maxCallMode) ∨
        ¬(f32Le f32Zero rb = true ∧ f32Le rb f32One = true)) ∧
    (∀ w, storeModeRatio m1 m2 rb = some w → w = packModeRatio m1.toNat m2.toNat rb) := by
  have e1 : checkValid m1 = false ↔ ¬(0 ≤ m1 ∧ m1 < maxCallMode) := by
    rw [← checkValid_iff m1, Bool.eq_false_iff]
  have e2 : checkValid m2 = false ↔ ¬(0 ≤ m2 ∧ m2 < maxCallMode) := by
    rw [← checkValid_iff m2, Bool.eq_false_iff]
  have e3 : f32Ne rb (goMinF32 (goMaxF32 f32Zero rb) f32One) = true ↔
      ¬(f32Le f32Zero rb = true ∧ f32Le rb f32One = true) := by
    rw [← ratio_check_iff rb]
    simp
  refine ⟨?_, fun w h => (storeModeRatio_some h).2.2.2⟩
  rw [storeModeRatio_none_iff, e1, e2, e3]

/-- C5: For every valid triple, `storeModeRatio` followed by
`loadModeRatio` recovers the modes bit-exactly and the float32 ratio bit
pattern (hence the ratio value) exactly. -/
theorem store_load_roundtrip (m1 m2 : Int) (rb w : Nat) (hrb : rb < 2 ^ 32)
    (h : storeModeRatio m1 m2 rb = some w) :
    loadModeRatio w = (m1, m2, rb) := by
  obtain ⟨c1, c2, _, hw⟩ := storeModeRatio_some h
  rw [checkValid_iff] at c1 c2
  have b1 : 0 ≤ m1 ∧ m1 < 6 := by simpa [maxCallMode] using c1
  have b2 : 0 ≤ m2 ∧ m2 < 6 := by simpa [maxCallMode] using c2
  subst hw
  have t1 : m1.toNat < 2 ^ 16 := by omega
  have t2 : m2.toNat < 2 ^ 16 := by omega
  rw [loadModeRatio_packModeRatio t1 t2 hrb]
  rw [Int.toNat_of_nonneg b1.1, Int.toNat_of_nonneg b2.1]

/-- C5 witness: round-trip at the concrete triple
`(CallBothButReturnV1, CallBothButReturnV2, 1.0)`. -/
theorem store_load_roundtrip_witness :
    f32One < 2 ^ 32 ∧
      loadModeRatio (packModeRatio 2 3 f32One) =
        (CallBothButReturnV1, CallBothButReturnV2, f32One) :=
  ⟨by norm_num [f32One],
    store_load_roundtrip CallBothButReturnV1 CallBothButReturnV2 f32One
      (packModeRatio 2 3 f32One) (by norm_num [f32One]) (by decide)⟩

/-- C3: For every stored valid triple `(mode1, mode2, ratio)` and every
uniform draw `r` in `[0, 1)`, `loadRandomMode` returns a value in
`{mode1, mode2}`; when the ratio is numerically 0 it returns mode1 for
every draw, and when the ratio is numerically 1 it returns mode2 for every
draw. -/
theorem loadRandomMode_cases (m1 m2 : Int) (rb w r : Nat)
    (hrb : rb < 2 ^ 32) (hst : storeModeRatio m1 m2 rb = some w)
    (hr0 : f32Le f32Zero r = true) (hr1 : f32Lt r f32One = true) :
    (loadRandomMode w r = m1 ∨ loadRandomMode w r = m2) ∧
      (f32Key rb = f32Key f32Zero → loadRandomMode w r = m1) ∧
      (f32Key rb = f32Key f32One → loadRandomMode w r = m2) := by
  have hload := store_load_roundtrip m1 m2 rb w hrb hst
  obtain ⟨_, _, hc, _⟩ := storeModeRatio_some hst
  have hrange := (ratio_check_iff rb).mp hc
  have hnrb : f32IsNaN rb = false := by
    rcases hrange with ⟨h0, _⟩
    simp only [f32Le, Bool.and_eq_true, Bool.not_eq_true'] at h0
    exact h0.1.2
  have hnr : f32IsNaN r = false := by
    simp only [f32Le, Bool.and_eq_true, Bool.not_eq_true'] at hr0
    exact hr0.1.2
  have hkey0 : (0 : Int) ≤ f32Key r := by
    simp only [f32Le, Bool.and_eq_true, decide_eq_true_eq] at hr0
    have : f32Key f32Zero = 0 := by decide
    omega
  have hkey1 : f32Key r < f32Key f32One := by
    simp only [f32Lt, Bool.and_eq_true, decide_eq_true_eq] at hr1
    exact hr1.2
  have hko : f32Key f32One = 0x3f800000 := by decide
  have hkz : f32Key f32Zero = 0 := by decide
  have hno : f32IsNaN f32One = false := by decide
  simp only [loadRandomMode, hload]
  refine ⟨?_, ?_, ?_⟩
  · cases hcond : (f32Lt rb f32One && f32Ge r rb) <;> simp [hcond]
  · intro hk
    have h1 : f32Lt rb f32One = true := by
      simp only [f32Lt, hnrb, hno, Bool.not_false, Bool.true_and, decide_eq_true_eq]
      omega
    have h2 : f32Ge r rb = true := by
      simp only [f32Ge, f32Le, hnrb, hnr, Bool.not_false, Bool.true_and,
        decide_eq_true_eq]
      omega
    simp [h1, h2]
  · intro hk
    have h1 : f32Lt rb f32One = false := by
      simp only [f32Lt, hnrb, hno, Bool.not_false, Bool.true_and,
        decide_eq_false_iff_not, not_lt]
      omega
    simp [h1]

/-- C3 witness: with the stored triple `(OnlyCallV1, OnlyCallV2, 0.0)` and
the concrete draw `r = 0.5`, the drawn mode is `OnlyCallV1`. -/
theorem loadRandomMode_cases_witness :
    f32Zero < 2 ^ 32 ∧
      (loadRandomMode (packModeRatio 0 5 f32Zero) 0x3f000000 = OnlyCallV1 ∨
        loadRandomMode (packModeRatio 0 5 f32Zero) 0x3f000000 = OnlyCallV2) ∧
      loadRandomMode (packModeRatio 0 5 f32Zero) 0x3f000000 = OnlyCallV1 :=
  ⟨by norm_num [f32Zero],
    (loadRandomMode_cases OnlyCallV1 OnlyCallV2 f32Zero (packModeRatio 0 5 f32Zero)
      0x3f000000 (by norm_num [f32Zero]) (by decide) (by decide) (by decide)).1,
    (loadRandomMode_cases OnlyCallV1 OnlyCallV2 f32Zero (packModeRatio 0 5 f32Zero)
      0x3f000000 (by norm_num [f32Zero]) (by decide) (by decide) (by decide)).2.1
      (by decide)⟩

/-- C9: the (mode1, mode2, ratio) triple lives in one 64-bit word that
every store replaces whole and every load reads whole; consequently, under
any interleaving of stores and loads, every observable word is the packed
encoding of a single previously stored valid triple (taking the zero
initial word as the encoding of `(OnlyCallV1, OnlyCallV1, 0)`): both
unpacked modes come from that one triple — never a torn mixture of two
stores — and every drawn mode is one of that triple's two modes, hence
inside the 6-element enumeration. -/
theorem reachableWord_single_store (w : Nat) (h : ReachableWord w) :
    ∃ m1 m2 rb, (0 ≤ m1 ∧ m1 < maxCallMode) ∧ (0 ≤ m2 ∧ m2 < maxCallMode) ∧
      rb < 2 ^ 32 ∧ storeModeRatio m1 m2 rb = some w ∧
      loadModeRatio w = (m1, m2, rb) ∧
      ∀ r, loadRandomMode w r = m1 ∨ loadRandomMode w r = m2 := by
  induction h with
  | init =>
    refine ⟨0, 0, 0, by simp [maxCallMode], by simp [maxCallMode], by norm_num,
      by decide, by decide, fun r => ?_⟩
    have hl : loadModeRatio 0 = (0, 0, 0) := by decide
    simp only [loadRandomMode, hl]
    by_cases hcond : (f32Lt 0 f32One && f32Ge r 0) = true <;> simp [hcond]
  | store w w' m1 m2 rb _ hrb hst _ =>
    obtain ⟨c1, c2, _, _⟩ := storeModeRatio_some hst
    rw [checkValid_iff] at c1 c2
    have hload := store_load_roundtrip m1 m2 rb w' hrb hst
    refine ⟨m1, m2, rb, c1, c2, hrb, hst, hload, fun r => ?_⟩
    simp only [loadRandomMode, hload]
    by_cases hcond : (f32Lt rb f32One && f32Ge r rb) = true <;> simp [hcond]

/-- C9 witness: the initial word and a concretely stored word both unpack
to a single stored triple. -/
theorem reachableWord_single_store_witness :
    ∃ m1 m2 rb, (0 ≤ m1 ∧ m1 < maxCallMode) ∧ (0 ≤ m2 ∧ m2 < maxCallMode) ∧
      rb < 2 ^ 32 ∧ storeModeRatio m1 m2 rb = some 0 ∧
      loadModeRatio 0 = (m1, m2, rb) ∧
      ∀ r, loadRandomMode 0 r = m1 ∨ loadRandomMode 0 r = m2 :=
  reachableWord_single_store 0 ReachableWord.init

/-- C4 witness: at `(OnlyCallV1, OnlyCallV2, 1.0)` the store succeeds and
yields exactly the packed word. -/
theorem storeModeRatio_fails_iff_witness :
    packModeRatio 0 5 f32One = packModeRatio OnlyCallV1.toNat OnlyCallV2.toNat f32One :=
  (storeModeRatio_fails_iff OnlyCallV1 OnlyCallV2 f32One).2
    (packModeRatio 0 5 f32One) (by decide)

/-! ### SizeHistogram (src/jsonsplit.go lines 935-941) -/

/-- `bits.Len` from the Go standard library: the minimum number of bits
required to represent `n`; 0 for `n = 0`.  Computed by repeated halving;
the fuel argument (initialized to `n` itself) only drives the structural
recursion and never runs out because `(n + 1) / 2 ≤ n`. -/
def bitsLenAux : Nat → Nat → Nat
  | _, 0 => 0
  | 0, _ + 1 => 0
  | fuel + 1, n + 1 => bitsLenAux fuel ((n + 1) / 2) + 1

/-- `bits.Len n` for a 64-bit `uint n`. -/
def bitsLen (n : Nat) : Nat := bitsLenAux n n

/-- `SizeHistogram` is an array of `bits.UintSize + 1 = 65` counters in Go;
it is modelled as a total bucket-count function (`insertSize_bucket_le_64`
shows that only the first 65 buckets are ever touched for Go `int` sizes).
`SizeHistogram.insertSize n` (lines 939-941) increments the single bucket
`bits.Len(uint(max(n, 0)))`; the `int → uint` conversion is exact because
`max(n, 0) ≥ 0`. -/
def insertSize (h : Nat → Nat) (n : Int) : Nat → Nat :=
  fun i => if i = bitsLen (max n 0).toNat then h i + 1 else h i

theorem bitsLenAux_fuel_irrel :
    ∀ n fuel fuel2, n ≤ fuel → n ≤ fuel2 → bitsLenAux fuel n = bitsLenAux fuel2 n := by
  intro n
  induction n using Nat.strong_induction_on with
  | _ n ih =>
    intro fuel fuel2 h1 h2
    match n, fuel, fuel2 with
    | 0, _, _ => simp [bitsLenAux]
    | m + 1, f + 1, g + 1 =>
      show bitsLenAux f ((m + 1) / 2) + 1 = bitsLenAux g ((m + 1) / 2) + 1
      rw [ih ((m + 1) / 2) (by omega) f g (by omega) (by omega)]

theorem bitsLen_step (n : Nat) (h : 1 ≤ n) : bitsLen n = bitsLen (n / 2) + 1 := by
  match n, h with
  | m + 1, _ =>
    show bitsLenAux m ((m + 1) / 2) + 1 = _
    unfold bitsLen
    rw [bitsLenAux_fuel_irrel ((m + 1) / 2) m ((m + 1) / 2) (by omega) (by omega)]

theorem bitsLen_bounds :
    ∀ n, 1 ≤ n → 2 ^ (bitsLen n - 1) ≤ n ∧ n < 2 ^ bitsLen n := by
  intro n
  induction n using Nat.strong_induction_on with
  | _ n ih =>
    intro hn
    rcases Nat.lt_or_ge n 2 with h2 | h2
    · have : n = 1 := by omega
      subst this
      exact ⟨by decide, by decide⟩
    · have hstep := bitsLen_step n (by omega)
      have hhalf : 1 ≤ n / 2 := by omega
      obtain ⟨ihl, ihr⟩ := ih (n / 2) (by omega) hhalf
      have hk : 1 ≤ bitsLen (n / 2) := by
        by_contra hcontra
        have : bitsLen (n / 2) = 0 := by omega
        rw [this] at ihr
        omega
      rw [hstep]
      generalize hb : bitsLen (n / 2) = k at ihl ihr hk
      have e2 : k + 1 - 1 = k := by omega
      rw [e2]
      have hp1 : (2 : Nat) ^ k = 2 ^ (k - 1) * 2 := by
        rw [← pow_succ]
        congr 1
        omega
      have hp2 : (2 : Nat) ^ (k + 1) = 2 ^ k * 2 := by rw [pow_succ]
      constructor
      · rw [hp1]
        omega
      · rw [hp2]
        omega

theorem bitsLen_eq_log (n : Nat) (h : 1 ≤ n) : bitsLen n = Nat.log 2 n + 1 := by
  obtain ⟨hl, hr⟩ := bitsLen_bounds n h
  have hk : 1 ≤ bitsLen n := by
    by_contra hcontra
    have : bitsLen n = 0 := by omega
    rw [this] at hr
    omega
  have := Nat.log_eq_of_pow_le_of_lt_pow hl (by
    have : bitsLen n - 1 + 1 = bitsLen n := by omega
    rw [this]
    exact hr)
  omega

/-- For any Go `int` size (so `n < 2^63`), the bucket index is at most 64,
matching the fixed 65-element array `[bits.UintSize + 1]expvar.Int`. -/
theorem insertSize_bucket_le_64 (n : Int) (hhi : n < 2 ^ 63) :
    bitsLen (max n 0).toNat ≤ 64 := by
  rcases le_or_lt n 0 with hle | hpos
  · have : (max n 0).toNat = 0 := by omega
    rw [this]
    decide
  · have h1 : 1 ≤ (max n 0).toNat := by omega
    have h2 : (max n 0).toNat < 2 ^ 63 := by
      have : (2 : Int) ^ 63 = ((2 ^ 63 : Nat) : Int) := by norm_num
      omega
    obtain ⟨hl, _⟩ := bitsLen_bounds _ h1
    by_contra hcontra
    have h64 : 64 ≤ bitsLen (max n 0).toNat - 1 := by omega
    have : (2 : Nat) ^ 64 ≤ 2 ^ (bitsLen (max n 0).toNat - 1) :=
      Nat.pow_le_pow_right (by omega) h64
    have : (2 : Nat) ^ 64 ≤ (max n 0).toNat := le_trans this hl
    norm_num at this h2
    omega

/-! ### Claim C7 -/

/-- C7: For every integer `n`, `SizeHistogram.insert n` increments exactly
the bucket with index `floor(log2(max(n, 0))) + 1` when `n ≥ 1` and
bucket 0 when `n ≤ 0`; in particular inserts of 0, 1, 2 land in the three
distinct buckets 0, 1, 2, and an insert of 16 lands in bucket 5. -/
theorem insertSize_bucket (n : Int) (h : Nat → Nat) :
    (∀ i, insertSize h n i =
      h i + if i = (if n ≤ 0 then 0 else Nat.log 2 n.toNat + 1) then 1 else 0) ∧
      insertSize h 0 0 = h 0 + 1 ∧ insertSize h 1 1 = h 1 + 1 ∧
      insertSize h 2 2 = h 2 + 1 ∧ insertSize h 16 5 = h 5 + 1 := by
  have hbucket : ∀ m : Int, bitsLen (max m 0).toNat =
      (if m ≤ 0 then 0 else Nat.log 2 m.toNat + 1) := by
    intro m
    rcases le_or_lt m 0 with hle | hpos
    · have : (max m 0).toNat = 0 := by omega
      rw [this, if_pos hle]
      decide
    · have h1 : (max m 0).toNat = m.toNat := by omega
      rw [h1, if_neg (by omega)]
      exact bitsLen_eq_log m.toNat (by omega)
  refine ⟨fun i => ?_, ?_, ?_, ?_, ?_⟩
  · unfold insertSize
    rw [hbucket n]
    by_cases hi : i = (if n ≤ 0 then 0 else Nat.log 2 n.toNat + 1) <;> simp [hi]
  all_goals
    unfold insertSize
    rw [if_pos (by decide)]

/-! ### JSON options and the option bisector
(src/jsonsplit.go lines 409-425 and 982-1050) -/

/-- A single JSON option setting: the name of an option constructor from
the `defaultOptionsV1` map together with the boolean it is applied to. -/
abbrev OptionSetting := String × Bool

/-- A `jsonv2.Options` value, as far as the bisector observes it: a
sequence of option settings in which a later setting overrides an earlier
one (the documented semantics of `jsonv2.JoinOptions`). -/
abbrev GoOptions := List OptionSetting

/-- `jsonv2.JoinOptions`: concatenate; later arguments take precedence. -/
def joinOptions (l : List GoOptions) : GoOptions := l.flatten

/-- `jsonv2.GetOption opts option`: the value of the named option when
`opts` explicitly sets it (the last setting wins), `none` otherwise. -/
def getOption (opts : GoOptions) (name : String) : Option Bool :=
  (opts.reverse.find? (fun p => p.1 == name)).map (fun p => p.2)

/-- The 21 names of the `defaultOptionsV1` map (lines 1028-1050), listed
in the sorted order that `sortedOptionNames` (lines 409-413) produces. -/
def sortedOptionNames : List String :=
  ["jsontext.AllowDuplicateNames",
   "jsontext.AllowInvalidUTF8",
   "jsontext.EscapeForHTML",
   "jsontext.EscapeForJS",
   "jsontext.PreserveRawStrings",
   "jsonv1.CallMethodsWithLegacySemantics",
   "jsonv1.FormatByteArrayAsArray",
   "jsonv1.FormatBytesWithLegacySemantics",
   "jsonv1.FormatDurationAsNano",
   "jsonv1.MatchCaseSensitiveDelimiter",
   "jsonv1.MergeWithLegacySemantics",
   "jsonv1.OmitEmptyWithLegacySemantics",
   "jsonv1.ParseBytesWithLooseRFC4648",
   "jsonv1.ParseTimeWithLooseRFC3339",
   "jsonv1.ReportErrorsWithLegacySemantics",
   "jsonv1.StringifyWithLegacySemantics",
   "jsonv1.UnmarshalArrayFromAnyLength",
   "jsonv2.Deterministic",
   "jsonv2.FormatNilMapAsNull",
   "jsonv2.FormatNilSliceAsNull",
   "jsonv2.MatchCaseInsensitiveNames"]

/-- `jsonv1.DefaultOptionsV1()` as the bisector sees it: every universe
option at its old-compatible default, which is `option(true)` for every
constructor in the `defaultOptionsV1` map (the package test
`TestDefaultOptionsV1` checks exactly this equivalence). -/
def defaultOptionsV1All : GoOptions := sortedOptionNames.map (fun name => (name, true))

/-- `autoDetectOptions` (lines 989-1024).  `arshalEqual` re-runs the v2
call with the supplied options (Go variadic, modelled as a list) and
reports whether the result matches the recorded v1 result; `o` is the
caller's explicit option list.  The Go `for _, option := range
defaultOptionsV1` map iteration has nondeterministic order; each
iteration touches a distinct option name, so the joined result is the
same set of settings in any order, and the model iterates in sorted name
order. -/
def autoDetectOptions (arshalEqual : List GoOptions → Bool) (o : List GoOptions) : GoOptions :=
  let optsCall := joinOptions o
  let optsV1 := joinOptions [defaultOptionsV1All, optsCall]
  if !arshalEqual [optsV1] then []
  else
    joinOptions ((sortedOptionNames.filter (fun name =>
      (getOption optsCall name == none) &&
        !arshalEqual [optsV1, [(name, false)]])).map (fun name => [(name, true)]))

theorem mem_joined_singletons (p : OptionSetting) (names : List String) (q : String → Bool) :
    p ∈ joinOptions ((names.filter q).map (fun name => [(name, true)])) ↔
      (p.2 = true ∧ p.1 ∈ names ∧ q p.1 = true) := by
  simp only [joinOptions, List.mem_flatten, List.mem_map, List.mem_filter]
  constructor
  · rintro ⟨l, ⟨name, ⟨hname, hq⟩, rfl⟩, hp⟩
    simp only [List.mem_singleton] at hp
    subst hp
    exact ⟨rfl, hname, hq⟩
  · rintro ⟨hval, hname, hq⟩
    rcases p with ⟨n, v⟩
    simp only at hval
    subst hval
    exact ⟨[(n, true)], ⟨n, ⟨hname, hq⟩, rfl⟩, by simp⟩

/-! ### Claim C1 -/

/-- C1: For every equivalence predicate P and caller option list, the
bisection returns the empty set whenever P evaluated with every universe
flag at its old-compatible (v1) default merged with the caller's options
fails; otherwise it returns exactly the settings `(name, true)` for the
universe flags not explicitly set by the caller whose individual toggling
off the v1 default (all others held at v1 defaults) makes P fail — each
flag added with its old-compatible value `true`. -/
theorem autoDetectOptions_spec (arshalEqual : List GoOptions → Bool) (o : List GoOptions) :
    (arshalEqual [joinOptions [defaultOptionsV1All, joinOptions o]] = false →
      autoDetectOptions arshalEqual o = []) ∧
    (arshalEqual [joinOptions [defaultOptionsV1All, joinOptions o]] = true →
      ∀ p : OptionSetting, p ∈ autoDetectOptions arshalEqual o ↔
        (p.2 = true ∧ p.1 ∈ sortedOptionNames ∧ getOption (joinOptions o) p.1 = none ∧
          arshalEqual [joinOptions [defaultOptionsV1All, joinOptions o],
            [(p.1, false)]] = false)) := by
  constructor
  · intro hfail
    simp [autoDetectOptions, hfail]
  · intro hok p
    have hX : autoDetectOptions arshalEqual o =
        joinOptions ((sortedOptionNames.filter (fun name =>
          (getOption (joinOptions o) name == none) &&
            !arshalEqual [joinOptions [defaultOptionsV1All, joinOptions o],
              [(name, false)]])).map (fun name => [(name, true)])) := by
      simp only [autoDetectOptions]
      rw [hok]
      rfl
    rw [hX, mem_joined_singletons]
    constructor
    · rintro ⟨hval, hname, hq⟩
      simp only [Bool.and_eq_true, beq_iff_eq, Bool.not_eq_true'] at hq
      exact ⟨hval, hname, hq.1, hq.2⟩
    · rintro ⟨hval, hname, hunset, htoggle⟩
      refine ⟨hval, hname, ?_⟩
      simp only [Bool.and_eq_true, beq_iff_eq, Bool.not_eq_true']
      exact ⟨hunset, htoggle⟩

/-- C1 witness: with a predicate that holds only for a single options
argument (so the sanity check passes and every toggle test fails) and no
caller options, a universe flag is reported at its old-compatible value. -/
theorem autoDetectOptions_spec_witness :
    ("jsontext.AllowInvalidUTF8", true) ∈
      autoDetectOptions (fun l => decide (l.length = 1)) [] :=
  ((autoDetectOptions_spec (fun l => decide (l.length = 1)) []).2 (by decide)
    ("jsontext.AllowInvalidUTF8", true)).mpr (by decide)

/-! ### Go values, heap, and the reflection helpers
(src/jsonsplit.go lines 873-933) -/

/-- A Go `any` value as the codec manipulates it: the nil interface, a
non-pointer value, a typed nil pointer, or a non-nil pointer into the
heap.  Type descriptors and non-pointer payloads are abstracted to `Nat`. -/
inductive GoVal where
  | nilAny : GoVal
  | nonPtr (ty : Nat) (val : Nat) : GoVal
  | nilPtr (ty : Nat) : GoVal
  | ptr (ty : Nat) (addr : Nat) : GoVal
  deriving DecidableEq

/-- The heap of pointees: an address is an index into `mem`, allocation
(`reflect.New`) appends.  Pointee contents are abstracted to `Nat`, with
`0` the zero value of every type. -/
structure Heap where
  mem : List Nat
  deriving DecidableEq

/-- Read the pointee at an address. -/
def readH (h : Heap) (a : Nat) : Nat := h.mem.getD a 0

/-- Overwrite the pointee at an address (`reflect.Value.Set` through a
pointer). -/
def writeH (h : Heap) (a : Nat) (v : Nat) : Heap := ⟨h.mem.set a v⟩

/-- Allocate a fresh cell holding `v` (`reflect.New` plus an optional
initial `Set`); returns the fresh address and the new heap. -/
def allocH (h : Heap) (v : Nat) : Nat × Heap := (h.mem.length, ⟨h.mem ++ [v]⟩)

/-- `isPointerToZero` (lines 890-892): a non-nil pointer whose pointee is
the zero value of its type. -/
def isPointerToZero (h : Heap) : GoVal → Bool
  | .ptr _ a => readH h a == 0
  | _ => false

/-- `reflect.DeepEqual` on two `any` values: equal dynamic types, nil
interfaces equal, pointers of one type equal when their pointees are
deeply equal. -/
def deepEqual (h : Heap) : GoVal → GoVal → Bool
  | .nilAny, .nilAny => true
  | .nonPtr t1 v1, .nonPtr t2 v2 => t1 == t2 && v1 == v2
  | .nilPtr t1, .nilPtr t2 => t1 == t2
  | .ptr t1 a1, .ptr t2 a2 => t1 == t2 && readH h a1 == readH h a2
  | _, _ => false

/-- `shallowCopy` (lines 921-933): when both arguments are non-nil
pointers of the same type, allocate a fresh cell preserving the old value
of `dst`, overwrite `dst`'s pointee with `nw`'s pointee, and return a
pointer to the preserved old value; otherwise return `dst` unchanged. -/
def shallowCopy (dst nw : GoVal) (h : Heap) : GoVal × Heap :=
  match dst, nw with
  | .ptr td ad, .ptr tn an =>
    if td = tn then
      let ov := allocH h (readH h ad)
      (GoVal.ptr td ov.1, writeH ov.2 ad (readH ov.2 an))
    else (dst, h)
  | _, _ => (dst, h)

/-! ### The Codec and its collaborators (src/jsonsplit.go lines 184-228) -/

/-- Raw JSON text. -/
abbrev Bytes := List Nat

/-- The configuration fields of `Codec` that the execution paths consult.
The two `callModeRatio` fields are handled by the mode/ratio model above;
the drawn mode enters the execution model as an explicit argument. -/
structure Codec where
  /-- The `AutoDetectOptions` field. -/
  autoDetectOptions : Bool
  /-- Whether the `ReportDifference` callback is non-nil; the sink itself
  is observed through the `reports` field of the outcomes. -/
  hasReportDifference : Bool
  /-- The `EqualJSONValues` hook (`none` = use `bytes.Equal`). -/
  equalJSONValues : Option (Bytes → Bytes → Bool)
  /-- The `EqualGoValues` hook (`none` = use `reflect.DeepEqual`). -/
  equalGoValues : Option (Heap → GoVal → GoVal → Bool)
  /-- The `EqualErrors` hook (`none` = compare nil-ness only). -/
  equalErrors : Option (Option Nat → Option Nat → Bool)
  /-- The `CloneGoValue` hook (`none` = hook absent; the hook returning
  `none` models the Go hook returning nil). -/
  cloneGoValueHook : Option (GoVal → Heap → Option (GoVal × Heap))

/-- `Codec.jsonEqual` (lines 852-857). -/
def jsonEqual (c : Codec) (v1 v2 : Bytes) : Bool :=
  match c.equalJSONValues with
  | some f => f v1 v2
  | none => v1 == v2

/-- `Codec.goEqual` (lines 859-864). -/
def goEqual (c : Codec) (h : Heap) (v1 v2 : GoVal) : Bool :=
  match c.equalGoValues with
  | some f => f h v1 v2
  | none => deepEqual h v1 v2

/-- `Codec.errorsEqual` (lines 866-871). -/
def errorsEqual (c : Codec) (e1 e2 : Option Nat) : Bool :=
  match c.equalErrors with
  | some f => f e1 e2
  | none => e1.isSome == e2.isSome

/-- The fallback branch of `Codec.cloneGoValue` (lines 882-887): the only
value that can trivially be cloned is a non-nil pointer to a zeroed
value, cloned by allocating a fresh zeroed cell. -/
def trivialCloneGoValue (v : GoVal) (h : Heap) : Option GoVal × Heap :=
  if isPointerToZero h v then
    match v with
    | .ptr ty _ => (some (GoVal.ptr ty (allocH h 0).1), (allocH h 0).2)
    | _ => (none, h)
  else (none, h)

/-- `Codec.cloneGoValue` (lines 873-888): use the custom hook when it is
present and succeeds, otherwise fall back to the trivial clone. -/
def cloneGoValue (c : Codec) (v : GoVal) (h : Heap) : Option GoVal × Heap :=
  match c.cloneGoValueHook with
  | some f =>
    match f v h with
    | some vh => (some vh.1, vh.2)
    | none => trivialCloneGoValue v h
  | none => trivialCloneGoValue v h

/-- The names of the enabled universe options of an options value, in the
iteration order of `optionNames` (lines 415-425). -/
def optionNamesOf (opts : GoOptions) : List String :=
  sortedOptionNames.filter (fun name => getOption opts name == some true)

/-- 1 if the call returns an error, else 0 (the deferred
`NumMarshalErrors` / `NumUnmarshalErrors` update). -/
def errCount (e : Option Nat) : Nat := if e.isSome then 1 else 0

/-! ### The marshal path (src/jsonsplit.go lines 484-575) -/

/-- A marshal engine (`jsonv1Marshal` or `jsonv2.Marshal`): a function of
the Go input value (abstracted to `Nat`) and the option list. -/
abbrev MFn := Nat → List GoOptions → Bytes × Option Nat

/-- The fields of a `Difference` record produced by `Codec.Marshal` that
the model tracks. -/
structure MDiff where
  caller : String
  goValue : Nat
  jsonValueV1 : Bytes
  jsonValueV2 : Bytes
  errorV1 : Option Nat
  errorV2 : Option Nat
  options : GoOptions
  deriving DecidableEq

/-- Everything observable about one `Codec.Marshal` call: the returned
value, the deltas of every counter, the keys added to each histogram, the
number of executions of each engine on the main path, the emitted
difference records, and (ghost instrumentation) the pair of outputs that
was passed to the difference comparison, if any.  Wall-clock timing
(`ExecTimeMarshal*Nanos`) is not modelled. -/
structure MOutcome where
  buf : Bytes
  err : Option Nat
  numMarshalTotal : Nat
  numMarshalErrors : Nat
  numMarshalOnlyCallV1 : Nat
  numMarshalOnlyCallV2 : Nat
  numMarshalCallBoth : Nat
  numMarshalReturnV1 : Nat
  numMarshalReturnV2 : Nat
  numMarshalDiffs : Nat
  callerHistogramAdds : List String
  optionHistogramAdds : List String
  sizeHistogramInserts : List Int
  v1Calls : Nat
  v2Calls : Nat
  reports : List MDiff
  comparedValues : Option (Bytes × Bytes)
  deriving DecidableEq

/-- The tail of the dual-path marshal block (lines 528-572): count the
dual call, check for differences (running the option bisector when
enabled, with the predicate of lines 540-543 re-running only v2), report,
and select the designated result.  Allocation-free, so heap-less. -/
def afterBothM (c : Codec) (mv2 : MFn) (caller : String) (v : Nat) (o : List GoOptions)
    (buf1 buf2 : Bytes) (err1 err2 : Option Nat) (retV1 : Bool) : MOutcome :=
  let isEq := jsonEqual c buf1 buf2 && errorsEqual c err1 err2
  let options : GoOptions :=
    if !isEq && c.autoDetectOptions then
      autoDetectOptions (fun os =>
        let rp := mv2 v os
        jsonEqual c buf1 rp.1 && errorsEqual c err1 rp.2) o
    else []
  let buf := if retV1 then buf1 else buf2
  let err := if retV1 then err1 else err2
  { buf := buf, err := err,
    numMarshalTotal := 1, numMarshalErrors := errCount err,
    numMarshalOnlyCallV1 := 0, numMarshalOnlyCallV2 := 0,
    numMarshalCallBoth := 1,
    numMarshalReturnV1 := if retV1 then 1 else 0,
    numMarshalReturnV2 := if retV1 then 0 else 1,
    numMarshalDiffs := if isEq then 0 else 1,
    callerHistogramAdds := if isEq then [] else [caller],
    optionHistogramAdds := if isEq then [] else optionNamesOf options,
    sizeHistogramInserts := [(buf.length : Int)],
    v1Calls := 1, v2Calls := 1,
    reports :=
      if !isEq && c.hasReportDifference then
        [{ caller := caller, goValue := v, jsonValueV1 := buf1, jsonValueV2 := buf2,
           errorV1 := err1, errorV2 := err2, options := options }]
      else [],
    comparedValues := some (buf1, buf2) }

/-- `Codec.Marshal` (lines 484-575) with the drawn mode as an explicit
argument; `none` models the `panic("unknown mode")` for a mode outside
the enumeration. -/
def codecMarshal (c : Codec) (mv1 mv2 : MFn) (mode : Int) (caller : String)
    (v : Nat) (o : List GoOptions) : Option MOutcome :=
  if mode = OnlyCallV1 then
    let r := mv1 v o
    some { buf := r.1, err := r.2,
           numMarshalTotal := 1, numMarshalErrors := errCount r.2,
           numMarshalOnlyCallV1 := 1, numMarshalOnlyCallV2 := 0,
           numMarshalCallBoth := 0, numMarshalReturnV1 := 1, numMarshalReturnV2 := 0,
           numMarshalDiffs := 0, callerHistogramAdds := [], optionHistogramAdds := [],
           sizeHistogramInserts := [(r.1.length : Int)],
           v1Calls := 1, v2Calls := 0, reports := [], comparedValues := none }
  else if mode = OnlyCallV2 then
    let r := mv2 v o
    some { buf := r.1, err := r.2,
           numMarshalTotal := 1, numMarshalErrors := errCount r.2,
           numMarshalOnlyCallV1 := 0, numMarshalOnlyCallV2 := 1,
           numMarshalCallBoth := 0, numMarshalReturnV1 := 0, numMarshalReturnV2 := 1,
           numMarshalDiffs := 0, callerHistogramAdds := [], optionHistogramAdds := [],
           sizeHistogramInserts := [(r.1.length : Int)],
           v1Calls := 0, v2Calls := 1, reports := [], comparedValues := none }
  else if mode = CallV1ButUponErrorReturnV2 then
    let r1 := mv1 v o
    match r1.2 with
    | none =>
      some { buf := r1.1, err := none,
             numMarshalTotal := 1, numMarshalErrors := 0,
             numMarshalOnlyCallV1 := 1, numMarshalOnlyCallV2 := 0,
             numMarshalCallBoth := 0, numMarshalReturnV1 := 1, numMarshalReturnV2 := 0,
             numMarshalDiffs := 0, callerHistogramAdds := [], optionHistogramAdds := [],
             sizeHistogramInserts := [(r1.1.length : Int)],
             v1Calls := 1, v2Calls := 0, reports := [], comparedValues := none }
    | some _ =>
      let r2 := mv2 v o
      some (afterBothM c mv2 caller v o r1.1 r2.1 r1.2 r2.2 false)
  else if mode = CallV2ButUponErrorReturnV1 then
    let r2 := mv2 v o
    match r2.2 with
    | none =>
      some { buf := r2.1, err := none,
             numMarshalTotal := 1, numMarshalErrors := 0,
             numMarshalOnlyCallV1 := 0, numMarshalOnlyCallV2 := 1,
             numMarshalCallBoth := 0, numMarshalReturnV1 := 0, numMarshalReturnV2 := 1,
             numMarshalDiffs := 0, callerHistogramAdds := [], optionHistogramAdds := [],
             sizeHistogramInserts := [(r2.1.length : Int)],
             v1Calls := 0, v2Calls := 1, reports := [], comparedValues := none }
    | some _ =>
      let r1 := mv1 v o
      some (afterBothM c mv2 caller v o r1.1 r2.1 r1.2 r2.2 true)
  else if mode = CallBothButReturnV1 then
    let r1 := mv1 v o
    let r2 := mv2 v o
    some (afterBothM c mv2 caller v o r1.1 r2.1 r1.2 r2.2 true)
  else if mode = CallBothButReturnV2 then
    let r1 := mv1 v o
    let r2 := mv2 v o
    some (afterBothM c mv2 caller v o r1.1 r2.1 r1.2 r2.2 false)
  else none

/-! ### The unmarshal path (src/jsonsplit.go lines 587-711) -/

/-- An unmarshal engine (`jsonv1Unmarshal` or `jsonv2.Unmarshal`) as a
function of the JSON input, the option list, and the current pointee of
the decode target, producing the new pointee and an error. -/
abbrev UFn := Bytes → List GoOptions → Nat → Nat × Option Nat

/-- Run an unmarshal engine against a decode target: decoding through a
non-nil pointer reads and replaces the pointee; any other target (nil
interface, nil pointer, non-pointer) makes the engine fail without
writing, as both real engines do. -/
def runUnmarshal (e : UFn) (b : Bytes) (o : List GoOptions) (v : GoVal) (h : Heap) :
    Heap × Option Nat :=
  match v with
  | .ptr _ a =>
    let r := e b o (readH h a)
    (writeH h a r.1, r.2)
  | _ => (h, some 0)

/-- The fields of a `Difference` record produced by `Codec.Unmarshal`
that the model tracks. -/
structure UDiff where
  caller : String
  jsonValue : Bytes
  goValueV1 : GoVal
  goValueV2 : GoVal
  errorV1 : Option Nat
  errorV2 : Option Nat
  options : GoOptions
  deriving DecidableEq

/-- Everything observable about one `Codec.Unmarshal` call: the returned
error, the final heap, the deltas of every counter, the keys added to
each histogram, the number of executions of each engine on the main path,
the emitted difference records, and (ghost instrumentation) the pair of
Go values passed to the difference comparison, if any.  Wall-clock timing
(`ExecTimeUnmarshal*Nanos`) is not modelled. -/
structure UOutcome where
  err : Option Nat
  heap : Heap
  numUnmarshalTotal : Nat
  numUnmarshalErrors : Nat
  numUnmarshalMerge : Nat
  numUnmarshalOnlyCallV1 : Nat
  numUnmarshalOnlyCallV2 : Nat
  numUnmarshalCallBoth : Nat
  numUnmarshalCallBothSkipped : Nat
  numUnmarshalReturnV1 : Nat
  numUnmarshalReturnV2 : Nat
  numUnmarshalDiffs : Nat
  callerHistogramAdds : List String
  optionHistogramAdds : List String
  sizeHistogramInserts : List Int
  v1Calls : Nat
  v2Calls : Nat
  reports : List UDiff
  comparedValues : Option (GoVal × GoVal)
  deriving DecidableEq

/-- The tail of the dual-path unmarshal block (lines 663-708): count the
dual call, check for differences between the two decoded values
(`val1`, `val2`) and errors, run the option bisector when enabled (with
the predicate of lines 675-679, which re-clones the original value and
re-runs only v2; its heap effects are garbage never referenced afterwards
and are dropped by this pure model), report, and select the designated
result.  `mrg` is the merge-counter delta computed on entry. -/
def afterBothU (c : Codec) (e2 : UFn) (caller : String) (b : Bytes) (o : List GoOptions)
    (valOrig val1 val2 : GoVal) (err1 err2 : Option Nat) (h : Heap) (mrg : Nat)
    (retV1 : Bool) : UOutcome :=
  let isEq := goEqual c h val1 val2 && errorsEqual c err1 err2
  let options : GoOptions :=
    if !isEq && c.autoDetectOptions then
      autoDetectOptions (fun os =>
        let clp := cloneGoValue c valOrig h
        let val2p := clp.1.getD GoVal.nilAny
        let rp := runUnmarshal e2 b os val2p clp.2
        goEqual c rp.1 val1 val2p && errorsEqual c err1 rp.2) o
    else []
  let err := if retV1 then err1 else err2
  { err := err, heap := h,
    numUnmarshalTotal := 1, numUnmarshalErrors := errCount err,
    numUnmarshalMerge := mrg,
    numUnmarshalOnlyCallV1 := 0, numUnmarshalOnlyCallV2 := 0,
    numUnmarshalCallBoth := 1, numUnmarshalCallBothSkipped := 0,
    numUnmarshalReturnV1 := if retV1 then 1 else 0,
    numUnmarshalReturnV2 := if retV1 then 0 else 1,
    numUnmarshalDiffs := if isEq then 0 else 1,
    callerHistogramAdds := if isEq then [] else [caller],
    optionHistogramAdds := if isEq then [] else optionNamesOf options,
    sizeHistogramInserts := [(b.length : Int)],
    v1Calls := 1, v2Calls := 1,
    reports :=
      if !isEq && c.hasReportDifference then
        [{ caller := caller, jsonValue := b, goValueV1 := val1, goValueV2 := val2,
           errorV1 := err1, errorV2 := err2, options := options }]
      else [],
    comparedValues := some (val1, val2) }

/-- A single-engine unmarshal outcome (the `OnlyCallV1`/`OnlyCallV2`
cases of lines 599-607, the clone-impossible fallbacks of lines 611-623,
and the early-success returns of lines 633-636 and 644-647, which return
`nil` — equal to the successful engine error).  `skipped` is 1 exactly in
the clone-impossible fallbacks. -/
def singleUOutcome (useV1 : Bool) (r : Heap × Option Nat) (b : Bytes) (mrg skipped : Nat) :
    UOutcome :=
  { err := r.2, heap := r.1,
    numUnmarshalTotal := 1, numUnmarshalErrors := errCount r.2,
    numUnmarshalMerge := mrg,
    numUnmarshalOnlyCallV1 := if useV1 then 1 else 0,
    numUnmarshalOnlyCallV2 := if useV1 then 0 else 1,
    numUnmarshalCallBoth := 0, numUnmarshalCallBothSkipped := skipped,
    numUnmarshalReturnV1 := if useV1 then 1 else 0,
    numUnmarshalReturnV2 := if useV1 then 0 else 1,
    numUnmarshalDiffs := 0, callerHistogramAdds := [], optionHistogramAdds := [],
    sizeHistogramInserts := [(b.length : Int)],
    v1Calls := if useV1 then 1 else 0, v2Calls := if useV1 then 0 else 1,
    reports := [], comparedValues := none }

/-- The dual-execution block of `Codec.Unmarshal` (lines 625-708),
entered once the target has been cloned successfully: run both engines on
independently owned targets, with the error-fallback modes decoding into
the caller's target first, returning early on success, and otherwise
swapping in the fallback result through `shallowCopy` (lines 640 and
651).  `h2` is the heap after the initial clone and `valOrig` the clone
of the target's original value. -/
def dualUOutcome (c : Codec) (e1 e2 : UFn) (mode : Int) (caller : String)
    (b : Bytes) (v valOrig : GoVal) (o : List GoOptions) (h2 : Heap) (mrg : Nat) : UOutcome :=
  if mode = CallV1ButUponErrorReturnV2 then
    let r1 := runUnmarshal e1 b o v h2
    match r1.2 with
    | none => singleUOutcome true (r1.1, none) b mrg 0
    | some _ =>
      let cl2 := cloneGoValue c valOrig r1.1
      let val2 := cl2.1.getD GoVal.nilAny
      let r2 := runUnmarshal e2 b o val2 cl2.2
      let sc := shallowCopy v val2 r2.1
      afterBothU c e2 caller b o valOrig sc.1 val2 r1.2 r2.2 sc.2 mrg false
  else if mode = CallV2ButUponErrorReturnV1 then
    let r2 := runUnmarshal e2 b o v h2
    match r2.2 with
    | none => singleUOutcome false (r2.1, none) b mrg 0
    | some _ =>
      let cl2 := cloneGoValue c valOrig r2.1
      let val1 := cl2.1.getD GoVal.nilAny
      let r1 := runUnmarshal e1 b o val1 cl2.2
      let sc := shallowCopy v val1 r1.1
      afterBothU c e2 caller b o valOrig val1 sc.1 r1.2 r2.2 sc.2 mrg true
  else if mode = CallBothButReturnV1 then
    let r1 := runUnmarshal e1 b o v h2
    let cl2 := cloneGoValue c valOrig r1.1
    let val2 := cl2.1.getD GoVal.nilAny
    let r2 := runUnmarshal e2 b o val2 cl2.2
    afterBothU c e2 caller b o valOrig v val2 r1.2 r2.2 r2.1 mrg true
  else
    let cl2 := cloneGoValue c valOrig h2
    let val1 := cl2.1.getD GoVal.nilAny
    let r1 := runUnmarshal e1 b o val1 cl2.2
    let r2 := runUnmarshal e2 b o v r1.1
    afterBothU c e2 caller b o valOrig val1 v r1.2 r2.2 r2.1 mrg false

/-- `Codec.Unmarshal` (lines 587-711) with the drawn mode as an explicit
argument; `none` models the `panic("unknown mode")` for a mode outside
the enumeration.  The merge counter is computed from the target's state
on entry (line 590); then the drawn mode selects the path: single-path
modes delegate to one engine; dual-path modes first clone the target
(lines 609-623) — when cloning is impossible only the mode-designated
engine runs and the skip is counted — and otherwise execute the dual
block `dualUOutcome`. -/
def codecUnmarshal (c : Codec) (e1 e2 : UFn) (mode : Int) (caller : String)
    (b : Bytes) (v : GoVal) (o : List GoOptions) (h : Heap) : Option UOutcome :=
  let mrg : Nat := if isPointerToZero h v then 0 else 1
  if mode = OnlyCallV1 then
    some (singleUOutcome true (runUnmarshal e1 b o v h) b mrg 0)
  else if mode = OnlyCallV2 then
    some (singleUOutcome false (runUnmarshal e2 b o v h) b mrg 0)
  else if mode = CallV1ButUponErrorReturnV2 ∨ mode = CallBothButReturnV1 ∨
      mode = CallBothButReturnV2 ∨ mode = CallV2ButUponErrorReturnV1 then
    let cl := cloneGoValue c v h
    match cl.1 with
    | none =>
      if mode = CallV1ButUponErrorReturnV2 ∨ mode = CallBothButReturnV1 then
        some (singleUOutcome true (runUnmarshal e1 b o v cl.2) b mrg 1)
      else
        some (singleUOutcome false (runUnmarshal e2 b o v cl.2) b mrg 1)
    | some valOrig =>
      some (dualUOutcome c e1 e2 mode caller b v valOrig o cl.2 mrg)
  else none

/-! ### Claim C6 -/

/-- C6: For every Marshal or Unmarshal call whose drawn mode is
`OnlyCallV1` or `OnlyCallV2`, exactly one engine is invoked (the
mode-designated one), its result (output and error) is returned unchanged
regardless of content, and no difference is detected: the diff counters,
the caller and option histograms, and the `ReportDifference` sink are
never touched on that call, and no comparison of outputs happens. -/
theorem onlyCall_modes_single_path (c : Codec) (mv1 mv2 : MFn) (e1 e2 : UFn)
    (caller : String) (gv : Nat) (b : Bytes) (v : GoVal) (o : List GoOptions) (h : Heap) :
    (codecMarshal c mv1 mv2 OnlyCallV1 caller gv o = some
      { buf := (mv1 gv o).1, err := (mv1 gv o).2,
        numMarshalTotal := 1, numMarshalErrors := errCount (mv1 gv o).2,
        numMarshalOnlyCallV1 := 1, numMarshalOnlyCallV2 := 0,
        numMarshalCallBoth := 0, numMarshalReturnV1 := 1, numMarshalReturnV2 := 0,
        numMarshalDiffs := 0, callerHistogramAdds := [], optionHistogramAdds := [],
        sizeHistogramInserts := [((mv1 gv o).1.length : Int)],
        v1Calls := 1, v2Calls := 0, reports := [], comparedValues := none }) ∧
    (codecMarshal c mv1 mv2 OnlyCallV2 caller gv o = some
      { buf := (mv2 gv o).1, err := (mv2 gv o).2,
        numMarshalTotal := 1, numMarshalErrors := errCount (mv2 gv o).2,
        numMarshalOnlyCallV1 := 0, numMarshalOnlyCallV2 := 1,
        numMarshalCallBoth := 0, numMarshalReturnV1 := 0, numMarshalReturnV2 := 1,
        numMarshalDiffs := 0, callerHistogramAdds := [], optionHistogramAdds := [],
        sizeHistogramInserts := [((mv2 gv o).1.length : Int)],
        v1Calls := 0, v2Calls := 1, reports := [], comparedValues := none }) ∧
    (codecUnmarshal c e1 e2 OnlyCallV1 caller b v o h = some
      { err := (runUnmarshal e1 b o v h).2, heap := (runUnmarshal e1 b o v h).1,
        numUnmarshalTotal := 1,
        numUnmarshalErrors := errCount (runUnmarshal e1 b o v h).2,
        numUnmarshalMerge := if isPointerToZero h v then 0 else 1,
        numUnmarshalOnlyCallV1 := 1, numUnmarshalOnlyCallV2 := 0,
        numUnmarshalCallBoth := 0, numUnmarshalCallBothSkipped := 0,
        numUnmarshalReturnV1 := 1, numUnmarshalReturnV2 := 0,
        numUnmarshalDiffs := 0, callerHistogramAdds := [], optionHistogramAdds := [],
        sizeHistogramInserts := [(b.length : Int)],
        v1Calls := 1, v2Calls := 0, reports := [], comparedValues := none }) ∧
    (codecUnmarshal c e1 e2 OnlyCallV2 caller b v o h = some
      { err := (runUnmarshal e2 b o v h).2, heap := (runUnmarshal e2 b o v h).1,
        numUnmarshalTotal := 1,
        numUnmarshalErrors := errCount (runUnmarshal e2 b o v h).2,
        numUnmarshalMerge := if isPointerToZero h v then 0 else 1,
        numUnmarshalOnlyCallV1 := 0, numUnmarshalOnlyCallV2 := 1,
        numUnmarshalCallBoth := 0, numUnmarshalCallBothSkipped := 0,
        numUnmarshalReturnV1 := 0, numUnmarshalReturnV2 := 1,
        numUnmarshalDiffs := 0, callerHistogramAdds := [], optionHistogramAdds := [],
        sizeHistogramInserts := [(b.length : Int)],
        v1Calls := 0, v2Calls := 1, reports := [], comparedValues := none }) :=
  ⟨rfl, rfl, rfl, rfl⟩

/-! ### Claim C8 -/

/-- The condition in the claim's words: the target "already holds
non-zero data on entry (it is a pointer to a non-zero value)".  Stated
from the spec for comparison with the code's actual condition, which is
the negation of `isPointerToZero`. -/
def isPointerToNonZeroSpec (h : Heap) : GoVal → Bool
  | .ptr _ a => !(readH h a == 0)
  | _ => false

/-- C8 (amended): on every Unmarshal call, the merge counter
`NumUnmarshalMerge` is incremented by exactly one if and only if the
target is NOT a non-nil pointer to a zeroed value; equivalently, it stays
unchanged exactly for targets that are non-nil pointers to zeroed values.
(Nil-pointer and non-pointer targets also increment it, although they do
not hold non-zero data.) -/
theorem singleUOutcome_merge (u : Bool) (r : Heap × Option Nat) (b : Bytes) (m s : Nat) :
    (singleUOutcome u r b m s).numUnmarshalMerge = m := rfl

theorem afterBothU_merge (c : Codec) (e2 : UFn) (caller : String) (b : Bytes)
    (o : List GoOptions) (valOrig val1 val2 : GoVal) (er1 er2 : Option Nat) (h : Heap)
    (m : Nat) (rv : Bool) :
    (afterBothU c e2 caller b o valOrig val1 val2 er1 er2 h m rv).numUnmarshalMerge = m := rfl

theorem dualUOutcome_merge (c : Codec) (e1 e2 : UFn) (mode : Int) (caller : String)
    (b : Bytes) (v valOrig : GoVal) (o : List GoOptions) (h2 : Heap) (m : Nat) :
    (dualUOutcome c e1 e2 mode caller b v valOrig o h2 m).numUnmarshalMerge = m := by
  unfold dualUOutcome
  dsimp only []
  (repeat' split) <;> first
    | exact singleUOutcome_merge ..
    | exact afterBothU_merge ..

theorem merge_counter_iff_not_pointerToZero (c : Codec) (e1 e2 : UFn) (mode : Int)
    (caller : String) (b : Bytes) (v : GoVal) (o : List GoOptions) (h : Heap) :
    (codecUnmarshal c e1 e2 mode caller b v o h).all
      (fun out => out.numUnmarshalMerge == if isPointerToZero h v then 0 else 1) = true := by
  unfold codecUnmarshal
  cases hcl : (cloneGoValue c v h).1 with
  | none =>
    simp only [hcl]
    (repeat' split) <;> simp [Option.all, singleUOutcome_merge]
  | some valOrig =>
    simp only [hcl]
    (repeat' split) <;> simp [Option.all, singleUOutcome_merge, dualUOutcome_merge]

/-- C8 counterexample: a decode into a nil pointer increments the merge
counter even though a nil pointer is not "a pointer to a non-zero value",
refuting the claimed "if and only if". -/
theorem merge_counter_counterexample :
    (codecUnmarshal ⟨false, false, none, none, none, none⟩
        (fun _ _ p => (p, none)) (fun _ _ p => (p, none)) OnlyCallV1 ""
        [] (GoVal.nilPtr 0) [] ⟨[]⟩).map (fun out => out.numUnmarshalMerge) = some 1 ∧
      isPointerToNonZeroSpec ⟨[]⟩ (GoVal.nilPtr 0) = false :=
  ⟨rfl, rfl⟩

/-! ### Claim C2 -/

theorem cloneGoValue_none_of_impossible (c : Codec) (v : GoVal) (h : Heap)
    (hnz : isPointerToZero h v = false)
    (hhook : c.cloneGoValueHook = none ∨
      ∃ f, c.cloneGoValueHook = some f ∧ f v h = none) :
    cloneGoValue c v h = (none, h) := by
  rcases hhook with hn | ⟨f, hf, hfv⟩
  · unfold cloneGoValue
    rw [hn]
    show trivialCloneGoValue v h = (none, h)
    simp [trivialCloneGoValue, hnz]
  · unfold cloneGoValue
    rw [hf]
    show (match f v h with
      | some vh => (some vh.1, vh.2)
      | none => trivialCloneGoValue v h) = (none, h)
    rw [hfv]
    show trivialCloneGoValue v h = (none, h)
    simp [trivialCloneGoValue, hnz]

/-- C2: For every Unmarshal call whose drawn mode is a dual-path mode, if
cloning the decode target is impossible (the clone hook is absent or
returns nil, and the target is not a non-nil pointer to a zero value),
then no comparison between v1 and v2 occurs, `NumUnmarshalCallBothSkipped`
is incremented by exactly one, exactly one engine — the mode-designated
path — runs, and its result (heap effect and error) is returned to the
caller with no clone-related error surfaced. -/
theorem clone_impossible_skips_dual_path (c : Codec) (e1 e2 : UFn) (mode : Int)
    (caller : String) (b : Bytes) (v : GoVal) (o : List GoOptions) (h : Heap)
    (hnz : isPointerToZero h v = false)
    (hhook : c.cloneGoValueHook = none ∨
      ∃ f, c.cloneGoValueHook = some f ∧ f v h = none) :
    ((mode = CallV1ButUponErrorReturnV2 ∨ mode = CallBothButReturnV1) →
      codecUnmarshal c e1 e2 mode caller b v o h = some
        { err := (runUnmarshal e1 b o v h).2, heap := (runUnmarshal e1 b o v h).1,
          numUnmarshalTotal := 1,
          numUnmarshalErrors := errCount (runUnmarshal e1 b o v h).2,
          numUnmarshalMerge := 1,
          numUnmarshalOnlyCallV1 := 1, numUnmarshalOnlyCallV2 := 0,
          numUnmarshalCallBoth := 0, numUnmarshalCallBothSkipped := 1,
          numUnmarshalReturnV1 := 1, numUnmarshalReturnV2 := 0,
          numUnmarshalDiffs := 0, callerHistogramAdds := [], optionHistogramAdds := [],
          sizeHistogramInserts := [(b.length : Int)],
          v1Calls := 1, v2Calls := 0, reports := [], comparedValues := none }) ∧
    ((mode = CallBothButReturnV2 ∨ mode = CallV2ButUponErrorReturnV1) →
      codecUnmarshal c e1 e2 mode caller b v o h = some
        { err := (runUnmarshal e2 b o v h).2, heap := (runUnmarshal e2 b o v h).1,
          numUnmarshalTotal := 1,
          numUnmarshalErrors := errCount (runUnmarshal e2 b o v h).2,
          numUnmarshalMerge := 1,
          numUnmarshalOnlyCallV1 := 0, numUnmarshalOnlyCallV2 := 1,
          numUnmarshalCallBoth := 0, numUnmarshalCallBothSkipped := 1,
          numUnmarshalReturnV1 := 0, numUnmarshalReturnV2 := 1,
          numUnmarshalDiffs := 0, callerHistogramAdds := [], optionHistogramAdds := [],
          sizeHistogramInserts := [(b.length : Int)],
          v1Calls := 0, v2Calls := 1, reports := [], comparedValues := none }) := by
  have hcl := cloneGoValue_none_of_impossible c v h hnz hhook
  constructor
  · rintro (rfl | rfl) <;>
      simp only [codecUnmarshal, hcl, hnz] <;> rfl
  · rintro (rfl | rfl) <;>
      simp only [codecUnmarshal, hcl, hnz] <;> rfl

/-- C2 witness: a concrete dual-path call (`CallBothButReturnV1`) on a
non-pointer target with no clone hook skips the comparison and runs only
the v1 engine. -/
theorem clone_impossible_skips_dual_path_witness :
    codecUnmarshal ⟨false, true, none, none, none, none⟩
        (fun _ _ p => (p + 1, none)) (fun _ _ p => (p + 2, none))
        CallBothButReturnV1 "site" [3] (GoVal.nonPtr 0 7) [] ⟨[]⟩ = some
      { err := (runUnmarshal (fun _ _ p => (p + 1, none)) [3] [] (GoVal.nonPtr 0 7) ⟨[]⟩).2,
        heap := (runUnmarshal (fun _ _ p => (p + 1, none)) [3] [] (GoVal.nonPtr 0 7) ⟨[]⟩).1,
        numUnmarshalTotal := 1,
        numUnmarshalErrors :=
          errCount (runUnmarshal (fun _ _ p => (p + 1, none)) [3] [] (GoVal.nonPtr 0 7) ⟨[]⟩).2,
        numUnmarshalMerge := 1,
        numUnmarshalOnlyCallV1 := 1, numUnmarshalOnlyCallV2 := 0,
        numUnmarshalCallBoth := 0, numUnmarshalCallBothSkipped := 1,
        numUnmarshalReturnV1 := 1, numUnmarshalReturnV2 := 0,
        numUnmarshalDiffs := 0, callerHistogramAdds := [], optionHistogramAdds := [],
        sizeHistogramInserts := [((3 : Nat) :: ([] : Bytes)).length],
        v1Calls := 1, v2Calls := 0, reports := [], comparedValues := none } :=
  (clone_impossible_skips_dual_path ⟨false, true, none, none, none, none⟩
      (fun _ _ p => (p + 1, none)) (fun _ _ p => (p + 2, none))
      CallBothButReturnV1 "site" [3] (GoVal.nonPtr 0 7) [] ⟨[]⟩ rfl
      (Or.inl rfl)).1 (Or.inr rfl)

/-! ### Heap lemmas -/

theorem writeH_length (h : Heap) (a : Nat) (x : Nat) :
    (writeH h a x).mem.length = h.mem.length := by
  simp [writeH]

theorem readH_writeH_same (h : Heap) (a : Nat) (x : Nat) (ha : a < h.mem.length) :
    readH (writeH h a x) a = x := by
  simp [readH, writeH, List.getElem?_set_self ha]

theorem readH_writeH_ne (h : Heap) (a a' : Nat) (x : Nat) (hne : a ≠ a') :
    readH (writeH h a x) a' = readH h a' := by
  simp [readH, writeH, List.getElem?_set_ne hne]

theorem readH_append_lt (h : Heap) (x : Nat) (i : Nat) (hi : i < h.mem.length) :
    readH ⟨h.mem ++ [x]⟩ i = readH h i := by
  simp [readH, List.getElem?_append_left hi]

theorem readH_append_self (h : Heap) (x : Nat) :
    readH ⟨h.mem ++ [x]⟩ h.mem.length = x := by
  simp [readH, List.getElem?_append_right (le_refl h.mem.length)]

/-! ### The clone-hook contract and clone facts -/

/-- The documented contract of the `CloneGoValue` collaborator, as the
dual path relies on it: on a valid non-nil pointer the hook returns a
deep clone — a type-correct pointer to a freshly allocated cell holding
the same contents — leaving every existing cell intact.  An absent hook
(`none`) trivially satisfies the contract (the codec then falls back to
the trivial clone). -/
def GoodCloneHook : Option (GoVal → Heap → Option (GoVal × Heap)) → Prop
  | none => True
  | some f => ∀ ty a h, a < h.mem.length →
      ∃ a2 h2, f (GoVal.ptr ty a) h = some (GoVal.ptr ty a2, h2) ∧
        h.mem.length ≤ a2 ∧ a2 < h2.mem.length ∧ readH h2 a2 = readH h a ∧
        h.mem.length ≤ h2.mem.length ∧ ∀ i, i < h.mem.length → readH h2 i = readH h i

theorem cloneGoValue_trivial_isSome (c : Codec) (v : GoVal) (h : Heap)
    (hc : c.cloneGoValueHook = none)
    (hs : (cloneGoValue c v h).1.isSome = true) : isPointerToZero h v = true := by
  by_cases hz : isPointerToZero h v
  · exact hz
  · exfalso
    rw [cloneGoValue_none_of_impossible c v h (by simpa using hz) (Or.inl hc)] at hs
    simp at hs

/-- Under the clone contract, cloning a valid pointer (when the hook is
absent, a pointer to zero) yields a fresh pointer of the same type whose
pointee equals the source pointee, with every existing cell preserved. -/
theorem cloneGoValue_proper (c : Codec) (hgood : GoodCloneHook c.cloneGoValueHook)
    (ty : Nat) (a : Nat) (h : Heap) (ha : a < h.mem.length)
    (hz : c.cloneGoValueHook = none → readH h a = 0) :
    ∃ a2 h2, cloneGoValue c (GoVal.ptr ty a) h = (some (GoVal.ptr ty a2), h2) ∧
      h.mem.length ≤ a2 ∧ a2 < h2.mem.length ∧ readH h2 a2 = readH h a ∧
      h.mem.length ≤ h2.mem.length ∧ ∀ i, i < h.mem.length → readH h2 i = readH h i := by
  cases hc : c.cloneGoValueHook with
  | none =>
    have hz0 := hz hc
    refine ⟨h.mem.length, ⟨h.mem ++ [0]⟩, ?_, le_refl _, by simp, ?_, by simp, ?_⟩
    · unfold cloneGoValue
      rw [hc]
      show trivialCloneGoValue (GoVal.ptr ty a) h = _
      unfold trivialCloneGoValue
      have hpz : isPointerToZero h (GoVal.ptr ty a) = true := by
        simp [isPointerToZero, hz0]
      simp only [hpz, if_true, ite_true, allocH]
    · rw [readH_append_self, hz0]
    · intro i hi
      exact readH_append_lt h 0 i hi
  | some f =>
    have hgood2 : ∀ ty a h, a < h.mem.length →
        ∃ a2 h2, f (GoVal.ptr ty a) h = some (GoVal.ptr ty a2, h2) ∧
          h.mem.length ≤ a2 ∧ a2 < h2.mem.length ∧ readH h2 a2 = readH h a ∧
          h.mem.length ≤ h2.mem.length ∧ ∀ i, i < h.mem.length → readH h2 i = readH h i := by
      rw [hc] at hgood
      exact hgood
    obtain ⟨a2, h2, hf, hle, hlt, hcopy, hlen, hpres⟩ := hgood2 ty a h ha
    refine ⟨a2, h2, ?_, hle, hlt, hcopy, hlen, hpres⟩
    unfold cloneGoValue
    rw [hc]
    show (match f (GoVal.ptr ty a) h with
      | some vh => (some vh.1, vh.2)
      | none => trivialCloneGoValue (GoVal.ptr ty a) h) = _
    rw [hf]

/-! ### afterBothU field lemmas -/

theorem afterBothU_comparedValues (c : Codec) (e2 : UFn) (caller : String) (b : Bytes)
    (o : List GoOptions) (valOrig val1 val2 : GoVal) (er1 er2 : Option Nat) (h : Heap)
    (m : Nat) (rv : Bool) :
    (afterBothU c e2 caller b o valOrig val1 val2 er1 er2 h m rv).comparedValues =
      some (val1, val2) := rfl

theorem afterBothU_heap (c : Codec) (e2 : UFn) (caller : String) (b : Bytes)
    (o : List GoOptions) (valOrig val1 val2 : GoVal) (er1 er2 : Option Nat) (h : Heap)
    (m : Nat) (rv : Bool) :
    (afterBothU c e2 caller b o valOrig val1 val2 er1 er2 h m rv).heap = h := rfl

theorem afterBothU_err (c : Codec) (e2 : UFn) (caller : String) (b : Bytes)
    (o : List GoOptions) (valOrig val1 val2 : GoVal) (er1 er2 : Option Nat) (h : Heap)
    (m : Nat) (rv : Bool) :
    (afterBothU c e2 caller b o valOrig val1 val2 er1 er2 h m rv).err =
      if rv then er1 else er2 := rfl

theorem afterBothU_callBoth (c : Codec) (e2 : UFn) (caller : String) (b : Bytes)
    (o : List GoOptions) (valOrig val1 val2 : GoVal) (er1 er2 : Option Nat) (h : Heap)
    (m : Nat) (rv : Bool) :
    (afterBothU c e2 caller b o valOrig val1 val2 er1 er2 h m rv).numUnmarshalCallBoth =
      1 := rfl

theorem afterBothU_returnV1 (c : Codec) (e2 : UFn) (caller : String) (b : Bytes)
    (o : List GoOptions) (valOrig val1 val2 : GoVal) (er1 er2 : Option Nat) (h : Heap)
    (m : Nat) (rv : Bool) :
    (afterBothU c e2 caller b o valOrig val1 val2 er1 er2 h m rv).numUnmarshalReturnV1 =
      if rv then 1 else 0 := rfl

theorem afterBothU_returnV2 (c : Codec) (e2 : UFn) (caller : String) (b : Bytes)
    (o : List GoOptions) (valOrig val1 val2 : GoVal) (er1 er2 : Option Nat) (h : Heap)
    (m : Nat) (rv : Bool) :
    (afterBothU c e2 caller b o valOrig val1 val2 er1 er2 h m rv).numUnmarshalReturnV2 =
      if rv then 0 else 1 := rfl

theorem afterBothU_reports (c : Codec) (e2 : UFn) (caller : String) (b : Bytes)
    (o : List GoOptions) (valOrig val1 val2 : GoVal) (er1 er2 : Option Nat) (h : Heap)
    (m : Nat) (rv : Bool) :
    ∀ d ∈ (afterBothU c e2 caller b o valOrig val1 val2 er1 er2 h m rv).reports,
      d.goValueV1 = val1 ∧ d.goValueV2 = val2 ∧ d.errorV1 = er1 ∧ d.errorV2 = er2 := by
  intro d hd
  unfold afterBothU at hd
  dsimp only at hd
  split at hd
  · simp only [List.mem_singleton] at hd
    subst hd
    exact ⟨rfl, rfl, rfl, rfl⟩
  · simp at hd

/-! ### Claim C10 -/

/-- C10: For every Unmarshal call in mode `CallV1ButUponErrorReturnV2`
where v1 fails and both paths run (the target was clonable; any custom
clone hook honours its deep-clone contract), on return the caller's
original target pointer holds exactly the value produced by the v2
decode, while the v1-decoded value is preserved in a freshly allocated
copy (via `shallowCopy`) and that copy is the value used as the v1 side
of the difference comparison and of any emitted report; symmetrically for
`CallV2ButUponErrorReturnV1` with the v1 and v2 roles swapped. -/
theorem error_fallback_swaps_results (c : Codec) (e1 e2 : UFn) (caller : String)
    (b : Bytes) (ty : Nat) (a : Nat) (o : List GoOptions) (h : Heap)
    (hgood : GoodCloneHook c.cloneGoValueHook) (ha : a < h.mem.length)
    (hclone : (cloneGoValue c (GoVal.ptr ty a) h).1.isSome = true) :
    ((e1 b o (readH h a)).2.isSome = true →
      ∃ out av1 av2,
        codecUnmarshal c e1 e2 CallV1ButUponErrorReturnV2 caller b (GoVal.ptr ty a) o h =
          some out ∧
        av1 ≠ a ∧ av2 ≠ a ∧ av1 ≠ av2 ∧
        out.comparedValues = some (GoVal.ptr ty av1, GoVal.ptr ty av2) ∧
        readH out.heap a = (e2 b o (readH h a)).1 ∧
        readH out.heap av1 = (e1 b o (readH h a)).1 ∧
        readH out.heap av2 = (e2 b o (readH h a)).1 ∧
        out.err = (e2 b o (readH h a)).2 ∧
        out.numUnmarshalCallBoth = 1 ∧ out.numUnmarshalReturnV2 = 1 ∧
        ∀ d ∈ out.reports, d.goValueV1 = GoVal.ptr ty av1 ∧
          d.goValueV2 = GoVal.ptr ty av2 ∧
          d.errorV1 = (e1 b o (readH h a)).2 ∧ d.errorV2 = (e2 b o (readH h a)).2) ∧
    ((e2 b o (readH h a)).2.isSome = true →
      ∃ out av1 av2,
        codecUnmarshal c e1 e2 CallV2ButUponErrorReturnV1 caller b (GoVal.ptr ty a) o h =
          some out ∧
        av1 ≠ a ∧ av2 ≠ a ∧ av1 ≠ av2 ∧
        out.comparedValues = some (GoVal.ptr ty av1, GoVal.ptr ty av2) ∧
        readH out.heap a = (e1 b o (readH h a)).1 ∧
        readH out.heap av1 = (e1 b o (readH h a)).1 ∧
        readH out.heap av2 = (e2 b o (readH h a)).1 ∧
        out.err = (e1 b o (readH h a)).2 ∧
        out.numUnmarshalCallBoth = 1 ∧ out.numUnmarshalReturnV1 = 1 ∧
        ∀ d ∈ out.reports, d.goValueV1 = GoVal.ptr ty av1 ∧
          d.goValueV2 = GoVal.ptr ty av2 ∧
          d.errorV1 = (e1 b o (readH h a)).2 ∧ d.errorV2 = (e2 b o (readH h a)).2) := by
  have hz1 : c.cloneGoValueHook = none → readH h a = 0 := by
    intro hc
    have hpz := cloneGoValue_trivial_isSome c (GoVal.ptr ty a) h hc hclone
    simpa [isPointerToZero] using hpz
  obtain ⟨a0, h0, hcl1, h0le, h0lt, h0copy, h0len, h0pres⟩ :=
    cloneGoValue_proper c hgood ty a h ha hz1
  have hra0 : readH h0 a = readH h a := h0pres a ha
  set E1 := e1 b o (readH h a) with hE1
  set E2 := e2 b o (readH h a) with hE2
  constructor
  · -- CallV1ButUponErrorReturnV2
    intro herr1
    obtain ⟨er1, her1⟩ := Option.isSome_iff_exists.mp herr1
    have hstep1 : codecUnmarshal c e1 e2 CallV1ButUponErrorReturnV2 caller b
        (GoVal.ptr ty a) o h
        = some (dualUOutcome c e1 e2 CallV1ButUponErrorReturnV2 caller b (GoVal.ptr ty a)
            (GoVal.ptr ty a0) o h0 (if isPointerToZero h (GoVal.ptr ty a) then 0 else 1)) := by
      unfold codecUnmarshal
      rw [hcl1]
      rfl
    set h1 := writeH h0 a E1.1 with hh1
    have hrun1 : runUnmarshal e1 b o (GoVal.ptr ty a) h0 = (h1, E1.2) := by
      show (writeH h0 a (e1 b o (readH h0 a)).1, (e1 b o (readH h0 a)).2) = (h1, E1.2)
      rw [hra0]
    have hlen1 : h1.mem.length = h0.mem.length := writeH_length h0 a E1.1
    have ha0lt : a0 < h1.mem.length := by omega
    have hane : a ≠ a0 := by omega
    have hra1 : readH h1 a0 = readH h a := by
      rw [hh1, readH_writeH_ne h0 a a0 E1.1 hane, h0copy]
    have hz2 : c.cloneGoValueHook = none → readH h1 a0 = 0 := by
      intro hc
      rw [hra1]
      exact hz1 hc
    obtain ⟨a2, h2, hcl2, h2le, h2lt, h2copy, h2len, h2pres⟩ :=
      cloneGoValue_proper c hgood ty a0 h1 ha0lt hz2
    have hra2 : readH h2 a2 = readH h a := by rw [h2copy, hra1]
    set h3 := writeH h2 a2 E2.1 with hh3
    have hrun2 : runUnmarshal e2 b o (GoVal.ptr ty a2) h2 = (h3, E2.2) := by
      show (writeH h2 a2 (e2 b o (readH h2 a2)).1, (e2 b o (readH h2 a2)).2) = (h3, E2.2)
      rw [hra2]
    have hlen3 : h3.mem.length = h2.mem.length := writeH_length h2 a2 E2.1
    have halt1 : a < h1.mem.length := by omega
    have hana2 : a ≠ a2 := by omega
    have hreadh3a : readH h3 a = E1.1 := by
      rw [hh3, readH_writeH_ne h2 a2 a E2.1 (by omega)]
      rw [h2pres a halt1, hh1, readH_writeH_same h0 a E1.1 (by omega)]
    have hreadapp : readH ⟨h3.mem ++ [E1.1]⟩ a2 = E2.1 := by
      rw [readH_append_lt h3 E1.1 a2 (by omega)]
      rw [hh3, readH_writeH_same h2 a2 E2.1 h2lt]
    set h4 := writeH ⟨h3.mem ++ [E1.1]⟩ a E2.1 with hh4
    have hdual : dualUOutcome c e1 e2 CallV1ButUponErrorReturnV2 caller b (GoVal.ptr ty a)
        (GoVal.ptr ty a0) o h0 (if isPointerToZero h (GoVal.ptr ty a) then 0 else 1)
        = afterBothU c e2 caller b o (GoVal.ptr ty a0) (GoVal.ptr ty h3.mem.length)
            (GoVal.ptr ty a2) E1.2 E2.2 h4
            (if isPointerToZero h (GoVal.ptr ty a) then 0 else 1) false := by
      unfold dualUOutcome
      rw [if_pos rfl]
      dsimp only
      rw [hrun1]
      dsimp only
      rw [her1]
      dsimp only
      rw [hcl2]
      dsimp only [Option.getD]
      rw [hrun2]
      dsimp only
      unfold shallowCopy
      dsimp only
      rw [if_pos rfl]
      dsimp only [allocH]
      rw [hreadh3a, hreadapp, ← her1]
    refine ⟨afterBothU c e2 caller b o (GoVal.ptr ty a0) (GoVal.ptr ty h3.mem.length)
      (GoVal.ptr ty a2) E1.2 E2.2 h4 (if isPointerToZero h (GoVal.ptr ty a) then 0 else 1)
      false, h3.mem.length, a2, ?_, by omega, by omega, by omega, ?_, ?_, ?_, ?_, ?_,
      ?_, ?_, ?_⟩
    · rw [hstep1, hdual]
    · exact afterBothU_comparedValues ..
    · rw [afterBothU_heap, hh4]
      exact readH_writeH_same _ a E2.1 (by simp; omega)
    · rw [afterBothU_heap, hh4, readH_writeH_ne _ a h3.mem.length E2.1 (by omega)]
      exact readH_append_self h3 E1.1
    · rw [afterBothU_heap, hh4, readH_writeH_ne _ a a2 E2.1 hana2, hreadapp]
    · rw [afterBothU_err]
      rfl
    · exact afterBothU_callBoth ..
    · rw [afterBothU_returnV2]
      rfl
    · intro d hd
      exact afterBothU_reports _ _ _ _ _ _ _ _ _ _ _ _ _ d hd
  · -- CallV2ButUponErrorReturnV1
    intro herr2
    obtain ⟨er2, her2⟩ := Option.isSome_iff_exists.mp herr2
    have hstep1 : codecUnmarshal c e1 e2 CallV2ButUponErrorReturnV1 caller b
        (GoVal.ptr ty a) o h
        = some (dualUOutcome c e1 e2 CallV2ButUponErrorReturnV1 caller b (GoVal.ptr ty a)
            (GoVal.ptr ty a0) o h0 (if isPointerToZero h (GoVal.ptr ty a) then 0 else 1)) := by
      unfold codecUnmarshal
      rw [hcl1]
      rfl
    set h1 := writeH h0 a E2.1 with hh1
    have hrun1 : runUnmarshal e2 b o (GoVal.ptr ty a) h0 = (h1, E2.2) := by
      show (writeH h0 a (e2 b o (readH h0 a)).1, (e2 b o (readH h0 a)).2) = (h1, E2.2)
      rw [hra0]
    have hlen1 : h1.mem.length = h0.mem.length := writeH_length h0 a E2.1
    have ha0lt : a0 < h1.mem.length := by omega
    have hane : a ≠ a0 := by omega
    have hra1 : readH h1 a0 = readH h a := by
      rw [hh1, readH_writeH_ne h0 a a0 E2.1 hane, h0copy]
    have hz2 : c.cloneGoValueHook = none → readH h1 a0 = 0 := by
      intro hc
      rw [hra1]
      exact hz1 hc
    obtain ⟨a2, h2, hcl2, h2le, h2lt, h2copy, h2len, h2pres⟩ :=
      cloneGoValue_proper c hgood ty a0 h1 ha0lt hz2
    have hra2 : readH h2 a2 = readH h a := by rw [h2copy, hra1]
    set h3 := writeH h2 a2 E1.1 with hh3
    have hrun2 : runUnmarshal e1 b o (GoVal.ptr ty a2) h2 = (h3, E1.2) := by
      show (writeH h2 a2 (e1 b o (readH h2 a2)).1, (e1 b o (readH h2 a2)).2) = (h3, E1.2)
      rw [hra2]
    have hlen3 : h3.mem.length = h2.mem.length := writeH_length h2 a2 E1.1
    have halt1 : a < h1.mem.length := by omega
    have hana2 : a ≠ a2 := by omega
    have hreadh3a : readH h3 a = E2.1 := by
      rw [hh3, readH_writeH_ne h2 a2 a E1.1 (by omega)]
      rw [h2pres a halt1, hh1, readH_writeH_same h0 a E2.1 (by omega)]
    have hreadapp : readH ⟨h3.mem ++ [E2.1]⟩ a2 = E1.1 := by
      rw [readH_append_lt h3 E2.1 a2 (by omega)]
      rw [hh3, readH_writeH_same h2 a2 E1.1 h2lt]
    set h4 := writeH ⟨h3.mem ++ [E2.1]⟩ a E1.1 with hh4
    have hdual : dualUOutcome c e1 e2 CallV2ButUponErrorReturnV1 caller b (GoVal.ptr ty a)
        (GoVal.ptr ty a0) o h0 (if isPointerToZero h (GoVal.ptr ty a) then 0 else 1)
        = afterBothU c e2 caller b o (GoVal.ptr ty a0) (GoVal.ptr ty a2)
            (GoVal.ptr ty h3.mem.length) E1.2 E2.2 h4
            (if isPointerToZero h (GoVal.ptr ty a) then 0 else 1) true := by
      unfold dualUOutcome
      rw [if_neg (by decide), if_pos rfl]
      dsimp only
      rw [hrun1]
      dsimp only
      rw [her2]
      dsimp only
      rw [hcl2]
      dsimp only [Option.getD]
      rw [hrun2]
      dsimp only
      unfold shallowCopy
      dsimp only
      rw [if_pos rfl]
      dsimp only [allocH]
      rw [hreadh3a, hreadapp, ← her2]
    refine ⟨afterBothU c e2 caller b o (GoVal.ptr ty a0) (GoVal.ptr ty a2)
      (GoVal.ptr ty h3.mem.length) E1.2 E2.2 h4
      (if isPointerToZero h (GoVal.ptr ty a) then 0 else 1) true,
      a2, h3.mem.length, ?_, by omega, by omega, by omega, ?_, ?_, ?_, ?_, ?_,
      ?_, ?_, ?_⟩
    · rw [hstep1, hdual]
    · exact afterBothU_comparedValues ..
    · rw [afterBothU_heap, hh4]
      exact readH_writeH_same _ a E1.1 (by simp; omega)
    · rw [afterBothU_heap, hh4, readH_writeH_ne _ a a2 E1.1 hana2, hreadapp]
    · rw [afterBothU_heap, hh4, readH_writeH_ne _ a h3.mem.length E1.1 (by omega)]
      exact readH_append_self h3 E2.1
    · rw [afterBothU_err]
      rfl
    · exact afterBothU_callBoth ..
    · rw [afterBothU_returnV1]
      rfl
    · intro d hd
      exact afterBothU_reports _ _ _ _ _ _ _ _ _ _ _ _ _ d hd

/-- C10 witness: a concrete `CallV1ButUponErrorReturnV2` call with no
clone hook, a pointer-to-zero target, a failing v1 engine writing 7, and
a succeeding v2 engine writing 9: the target ends up holding 9 and the
compared v1-side copy holds 7. -/
theorem error_fallback_swaps_results_witness :
    ∃ out av1 av2,
      codecUnmarshal ⟨false, true, none, none, none, none⟩
          (fun _ _ _ => (7, some 1)) (fun _ _ _ => (9, none))
          CallV1ButUponErrorReturnV2 "site" [] (GoVal.ptr 0 0) [] ⟨[0]⟩ = some out ∧
      av1 ≠ 0 ∧ av2 ≠ 0 ∧ av1 ≠ av2 ∧
      out.comparedValues = some (GoVal.ptr 0 av1, GoVal.ptr 0 av2) ∧
      readH out.heap 0 = 9 ∧ readH out.heap av1 = 7 ∧ readH out.heap av2 = 9 ∧
      out.err = none ∧ out.numUnmarshalCallBoth = 1 ∧ out.numUnmarshalReturnV2 = 1 ∧
      ∀ d ∈ out.reports, d.goValueV1 = GoVal.ptr 0 av1 ∧ d.goValueV2 = GoVal.ptr 0 av2 ∧
        d.errorV1 = some 1 ∧ d.errorV2 = none :=
  (error_fallback_swaps_results ⟨false, true, none, none, none, none⟩
      (fun _ _ _ => (7, some 1)) (fun _ _ _ => (9, none)) "site" [] 0 0 [] ⟨[0]⟩
      trivial (by decide) (by decide)).1 (by decide)

end Jsonsplit
